import Mathlib

/-!
# Verification of the Jukebox API gateway core logic

Shallow embedding of the state-bearing logic of the Jukebox backend
(`src/unnamed/part_000` and `src/backend/spotify.js`): the in-memory TTL
cache, the fixed-window rate limiter, the token broker, the app-token
cache, the search-limit parsing, the review handler and the list-reorder
handler.  Time is modelled in integer milliseconds (`Date.now()` values);
JavaScript `Map`s are modelled as association lists in insertion order,
as `Map.set` updates an existing key in place and appends a fresh one.
-/

namespace Jukebox


/-! ## TTL cache (`getCached` / `setCached`, part_000 lines 107-169) -/

/-- A cache entry: the stored value and its absolute expiry instant
(`expiresAt` in ms), as stored by `setCached`. -/

structure CacheEntry (V : Type) where
  value : V
  expiresAt : Int
  deriving Repr, DecidableEq

/-- An insertion-ordered map, the model of a JavaScript `Map`. -/

abbrev JsMap (K V : Type) := List (K × V)

variable {K V : Type} [DecidableEq K]

/-- Model of `Map.get`: the value at the first (unique) occurrence of the key. -/

def mapGet : JsMap K V → K → Option V
  | [], _ => none
  | p :: rest, k => if p.1 = k then some p.2 else mapGet rest k

/-- Model of `Map.set`: update in place if the key is present, else append. -/

def mapSet : JsMap K V → K → V → JsMap K V
  | [], k, v => [(k, v)]
  | p :: rest, k, v => if p.1 = k then (k, v) :: rest else p :: mapSet rest k v

/-- Model of `Map.delete`: remove the (unique) binding of the key. -/

def mapDelete : JsMap K V → K → JsMap K V
  | [], _ => []
  | p :: rest, k => if p.1 = k then rest else p :: mapDelete rest k

/-- The ceiling `cacheMaxEntries = 500` (part_000 line 111). -/

def cacheMaxEntries : Nat := 500

/-- Model of `getCached(map, key)` evaluated at instant `now`: a missing entry is a
miss; an entry whose `expiresAt` has passed is deleted and reported as a
miss; otherwise the stored value is returned.  The result pairs the
returned value with the (possibly mutated) map. -/

def getCached (m : JsMap K (CacheEntry V)) (k : K) (now : Int) :
    Option V × JsMap K (CacheEntry V) :=
  match mapGet m k with
  | none => (none, m)
  | some e => if now > e.expiresAt then (none, mapDelete m k) else (some e.value, m)

/-- Model of `setCached(map, key, value, ttlMs)` evaluated at instant `now`: clear the
whole map when its size exceeds `cacheMaxEntries`, then insert the entry
with expiry `now + ttlMs`. -/

def setCached (m : JsMap K (CacheEntry V)) (k : K) (v : V) (ttlMs now : Int) :
    JsMap K (CacheEntry V) :=
  let m' := if m.length > cacheMaxEntries then [] else m
  mapSet m' k ⟨v, now + ttlMs⟩

/-- Inserting a sequence of keys (each with the same value/ttl/instant),
in order, via `setCached`. -/

def insertMany (m : JsMap K (CacheEntry V)) (ks : List K) (v : V) (ttlMs now : Int) :
    JsMap K (CacheEntry V) :=
  ks.foldl (fun acc k => setCached acc k v ttlMs now) m

/-- The key list of a map, in insertion order. -/

def mapKeys (m : JsMap K V) : List K := m.map Prod.fst

/-! ## Fixed-window rate limiter (`rateLimit`, part_000 lines 103-150) -/

/-- The window length `rateLimitWindowMs = 60_000` (part_000 line 103). -/

def rateLimitWindowMs : Int := 60000

/-- The ceiling `rateLimitMax = 60` (part_000 line 104). -/

def rateLimitMax : Nat := 60

/-- A per-client window in `rateLimitStore`: request count and the
window's reset instant. -/

structure RLEntry where
  count : Nat
  resetAt : Int
  deriving Repr, DecidableEq

/-- One invocation of the `rateLimit` middleware for a single client key:
`store` is the window currently held for that key (`none` if absent),
`now` is `Date.now()`.  If no window exists or the current one's
`resetAt` has elapsed, a fresh window `{count := 0, resetAt := now + 60s}`
replaces it; the count is then incremented and the request is rejected
with HTTP 429 exactly when the count exceeds `rateLimitMax`.  Returns
`(some 429, window)` on rejection and `(none, window)` when the request
is passed on to the handler. -/

def rateLimit (store : Option RLEntry) (now : Int) : Option Nat × RLEntry :=
  let entry : RLEntry :=
    match store with
    | some e => if now > e.resetAt then ⟨0, now + rateLimitWindowMs⟩ else e
    | none => ⟨0, now + rateLimitWindowMs⟩
  let entry' : RLEntry := ⟨entry.count + 1, entry.resetAt⟩
  if entry'.count > rateLimitMax then (some 429, entry') else (none, entry')

/-- Run a sequence of requests (arrival instants) for one client key,
threading the stored window, and collect the responses. -/

def runRequests : Option RLEntry → List Int → List (Option Nat) × Option RLEntry
  | st, [] => ([], st)
  | st, t :: ts =>
    ((rateLimit st t).1 :: (runRequests (some (rateLimit st t).2) ts).1,
     (runRequests (some (rateLimit st t).2) ts).2)

/-! ## Token broker (part_000 lines 171-198, spotify.js lines 53-114) -/

/-- JavaScript `x || null` on an optional string: the empty string and a
missing value are both coerced to `null`. -/

def jsStringOrNull : Option String → Option String
  | some s => if s = "" then none else some s
  | none => none

/-- The JSON body of a Spotify token response, as read by
`refreshAccessToken`: `refresh_token` may be absent. -/

structure TokenResponse where
  access_token : String
  refresh_token : Option String
  expires_in : Int
  deriving Repr, DecidableEq

/-- Model of `refreshAccessToken` (spotify.js lines 87-114), success path: returns
the new access token and `data.refresh_token || null`. -/

def refreshAccessToken (data : TokenResponse) : String × Option String :=
  (data.access_token, jsStringOrNull data.refresh_token)

/-- Model of `getUserRefreshToken` (part_000 lines 171-177): the stored
`refresh_token` column for the user, with `|| null` applied, so a missing
row or an empty string both yield `null`. -/

def getUserRefreshToken (dbValue : Option String) : Option String :=
  jsStringOrNull dbValue

/-- The error thrown with `code = 'missing_refresh_token'`. -/

inductive TokenError
  | missingRefreshToken
  deriving Repr, DecidableEq

/-- One `UPDATE users SET refresh_token = $1 WHERE id = $2` statement. -/

structure DbUpdate where
  userId : Nat
  newRefreshToken : String
  deriving Repr, DecidableEq

/-- Model of `getAccessTokenForUser` (part_000 lines 179-198): fails when the user
has no stored refresh token; otherwise exchanges the stored token and,
only when the provider returned a new refresh token, issues one database
update storing it.  The result carries the access token together with
the list of database updates performed. -/

def getAccessTokenForUser (userId : Nat) (dbValue : Option String) (resp : TokenResponse) :
    Except TokenError (String × List DbUpdate) :=
  match getUserRefreshToken dbValue with
  | none => .error .missingRefreshToken
  | some _ =>
    match (refreshAccessToken resp).2 with
    | some nrt => .ok ((refreshAccessToken resp).1, [⟨userId, nrt⟩])
    | none => .ok ((refreshAccessToken resp).1, [])

/-! ## App-token cache (`getAppAccessToken`, spotify.js lines 53-85) -/

/-- The module-level state `appAccessToken` / `appAccessTokenExpiresAt`. -/

structure AppTokenState where
  token : Option String
  expiresAt : Int
  deriving Repr, DecidableEq

/-- JavaScript truthiness of the cached token (`null` and `''` are falsy). -/

def tokenTruthy : Option String → Bool
  | some t => !(t == "")
  | none => false

/-- The JSON body of a client-credentials token response. -/

structure ClientCredsResponse where
  access_token : String
  expires_in : Int
  deriving Repr, DecidableEq

/-- Model of `getAppAccessToken` (spotify.js lines 56-85): return the cached token
when one is present and `now < appAccessTokenExpiresAt - 60_000`;
otherwise perform the client-credentials exchange (whose parsed response
is `resp`), cache the token with expiry `now + expires_in * 1000`, and
return it. -/

def getAppAccessToken (st : AppTokenState) (now : Int) (resp : ClientCredsResponse) :
    String × AppTokenState :=
  if tokenTruthy st.token ∧ now < st.expiresAt - 60000 then
    (st.token.getD "", st)
  else
    (resp.access_token, ⟨some resp.access_token, now + resp.expires_in * 1000⟩)

/-! ## Search endpoint: limit parsing and cache key
(`GET /spotify/search`, part_000 lines 308-349) -/

/-- JavaScript `String.prototype.trim()` (ASCII whitespace). -/

def jsTrim (s : String) : String :=
  String.mk ((s.toList.dropWhile Char.isWhitespace).reverse.dropWhile Char.isWhitespace).reverse

/-- Lower-casing of one character as done by `toLowerCase()` on ASCII. -/

def jsCharToLower (c : Char) : Char :=
  if 'A' ≤ c ∧ c ≤ 'Z' then Char.ofNat (c.toNat + 32) else c

/-- JavaScript `String.prototype.toLowerCase()` (ASCII). -/

def jsToLowerCase (s : String) : String :=
  String.mk (s.toList.map jsCharToLower)

/-- The leading decimal digits of a character list, or `none` when there
is no leading digit (`parseInt` yields `NaN` then). -/

def parseDigits (cs : List Char) : Option Nat :=
  let ds := cs.takeWhile Char.isDigit
  if ds.isEmpty then none
  else some (ds.foldl (fun acc c => acc * 10 + (c.toNat - 48)) 0)

/-- JavaScript `parseInt(s, 10)`: skip leading whitespace, accept an
optional sign, parse the longest leading run of decimal digits; `none`
models `NaN`. -/

def jsParseInt (s : String) : Option Int :=
  match s.toList.dropWhile Char.isWhitespace with
  | '-' :: rest => (parseDigits rest).map (fun n => -(n : Int))
  | '+' :: rest => (parseDigits rest).map (fun n => (n : Int))
  | cs => (parseDigits cs).map (fun n => (n : Int))

/-- The effective search limit (part_000 line 311):
`Math.min(Math.max(parseInt(limitRaw || '10', 10), 1), 20)`.
`limitRaw = none` models an absent query parameter; `NaN` (modelled as
`none` in the result) propagates through `Math.max`/`Math.min`. -/

def effectiveSearchLimit (limitRaw : Option String) : Option Int :=
  match jsParseInt (match limitRaw with
    | none => "10"
    | some s => if s = "" then "10" else s) with
  | none => none
  | some v => some (min (max v 1) 20)

/-- The string `String(limit)` as interpolated into the cache key and the upstream
URL; `NaN` prints as `"NaN"`. -/

def jsNumToString : Option Int → String
  | none => "NaN"
  | some v => toString v

/-- The search cache key (part_000 line 319):
`` `${cacheKey}:search:${limit}:${query.trim().toLowerCase()}` ``. -/

def searchCacheId (cacheKey : String) (limit : Option Int) (query : String) : String :=
  cacheKey ++ ":search:" ++ jsNumToString limit ++ ":" ++ jsToLowerCase (jsTrim query)

/-! ## Review creation (`POST /albums/:id/reviews`, part_000 lines 436-485) -/

/-- A request-body field that may or may not be a string
(`typeof req.body?.body === 'string'`). -/

inductive BodyVal
  | str (s : String)
  | nonString
  deriving Repr, DecidableEq

/-- The `users` row read back for the echo (`id, display_name, spotify_id`). -/

structure UserRow where
  id : Nat
  display_name : Option String
  spotify_id : Option String
  deriving Repr, DecidableEq

/-- The review object of a 201 response, with the nested user fields. -/

structure ReviewEcho where
  id : Nat
  rating : Int
  body : Option String
  created_at : String
  user_id : Nat
  user_display_name : Option String
  user_spotify_id : Option String
  deriving Repr, DecidableEq

/-- The response of the review-creation handler: 401, 400 with an error
code, or 201 with the echoed review. -/

inductive ReviewResult
  | unauthorized
  | badRequest (error : String)
  | created (review : ReviewEcho)
  deriving Repr, DecidableEq

/-- The echo field `userRow.id || req.user.sub` (a `0` id is falsy in JavaScript). -/

def reviewEchoUserId (userRow : Option UserRow) (uid : Nat) : Nat :=
  match userRow with
  | some u => if u.id = 0 then uid else u.id
  | none => uid

/-- The check `body && body.length > 2000`. -/

def bodyTooLong : Option String → Bool
  | some b => b.length > 2000
  | none => false

/-- Model of `POST /albums/:id/reviews` (part_000 lines 436-485).  `session` is the
authenticated user id (`none` = `requireAuth` rejects with 401);
`ratingRaw` is `parseInt(req.body?.rating, 10)` with `none` for `NaN`;
`insertedId`/`createdAt` are the values produced by the database insert;
`userRow` is the `users` row read back for the echo. -/

def postReview (session : Option Nat) (albumId : String) (ratingRaw : Option Int)
    (bodyField : BodyVal) (insertedId : Nat) (createdAt : String)
    (userRow : Option UserRow) : ReviewResult :=
  match session with
  | none => .unauthorized
  | some uid =>
    let bodyRaw := match bodyField with
      | .str s => jsTrim s
      | .nonString => ""
    let body : Option String := if bodyRaw.length > 0 then some bodyRaw else none
    if albumId = "" then .badRequest "album_id_required"
    else
      match ratingRaw with
      | none => .badRequest "rating_invalid"
      | some rating =>
        if rating < 1 ∨ rating > 10 then .badRequest "rating_invalid"
        else if bodyTooLong body then .badRequest "body_too_long"
        else
          .created
            { id := insertedId
              rating := rating
              body := body
              created_at := createdAt
              user_id := reviewEchoUserId userRow uid
              user_display_name := jsStringOrNull (userRow.bind UserRow.display_name)
              user_spotify_id := jsStringOrNull (userRow.bind UserRow.spotify_id) }

/-! ## List reorder (`POST /lists/:id/reorder` lines 1626-1703,
`GET /lists/:id` lines 1705-1745 of part_000) -/

/-- Model of `isValidSpotifyId` (part_000): `/^[A-Za-z0-9]{22}$/.test(value)`. -/

def isValidSpotifyId (s : String) : Bool :=
  s.length == 22 && s.toList.all (fun c => c.isAlpha || c.isDigit)

/-- A `list_items` row: album id and position. -/

structure ListItem where
  spotify_album_id : String
  position : Int
  deriving Repr, DecidableEq

/-- The response of the reorder handler.  `ok` carries the rows after the
bulk `CASE` update; every rejection leaves the rows untouched (no partial
reorder). -/

inductive ReorderResult
  | badRequest (error : String)
  | notFound (error : String)
  | ok (items : List ListItem)
  deriving Repr, DecidableEq

/-- The sanitisation chain applied to `req.body.order`: keep string
elements, trim them, drop empties. -/

def sanitizeOrder (raw : List BodyVal) : List String :=
  ((raw.filterMap fun v => match v with
      | .str s => some s
      | .nonString => none).map jsTrim).filter (fun s => s.length > 0)

/-- Index of the first occurrence of `a`, the first-match semantics of
the SQL `CASE spotify_album_id WHEN … THEN …` expression. -/

def idxOfFirst (a : String) : List String → Option Nat
  | [] => none
  | b :: rest => if b = a then some 0 else (idxOfFirst a rest).map (· + 1)

/-- The bulk update (part_000 lines 1676-1697): each row whose album id
is the `i`-th submitted id receives position `total - i`; other rows
keep their position (`ELSE position`). -/

def applyReorder (rows : List ListItem) (order : List String) : List ListItem :=
  rows.map fun r =>
    match idxOfFirst r.spotify_album_id order with
    | some i => ⟨r.spotify_album_id, (order.length : Int) - i⟩
    | none => r

/-- Model of `POST /lists/:id/reorder` (part_000 lines 1626-1703).  `listExists`
models whether the list lookup finds a row owned by the requester;
`rows` are the list's current `list_items`.  Checks happen in source
order: list id, empty order, invalid album id, duplicate, 404, size
mismatch, missing id, then the bulk update. -/

def reorderCore (listExists : Bool) (rows : List ListItem) (listId : Option Int)
    (rawOrder : List BodyVal) : ReorderResult :=
  let order := sanitizeOrder rawOrder
  if listId = none ∨ listId = some 0 then .badRequest "list_id_required"
  else if order.isEmpty then .badRequest "order_required"
  else if order.any (fun id => !(isValidSpotifyId id)) then .badRequest "invalid_album_id"
  else if ¬ order.Nodup then .badRequest "order_duplicate"
  else if ¬ listExists then .notFound "list_not_found"
  else if (rows.map ListItem.spotify_album_id).length ≠ order.length then
    .badRequest "order_mismatch"
  else if order.any (fun id => !((rows.map ListItem.spotify_album_id).contains id)) then
    .badRequest "order_mismatch"
  else .ok (applyReorder rows order)

/-- The relation induced by `ORDER BY position DESC`: row `a` may precede row `b` when
`b.position ≤ a.position`. -/

def itemGE (a b : ListItem) : Prop := b.position ≤ a.position

/-- Strict descending order on positions. -/

def itemGT (a b : ListItem) : Prop := b.position < a.position

instance : DecidableRel itemGE := fun a b =>
  inferInstanceAs (Decidable (b.position ≤ a.position))

instance : IsTotal ListItem itemGE :=
  ⟨fun a b => le_total b.position a.position⟩

instance : IsTrans ListItem itemGE :=
  ⟨fun _ _ _ hab hbc => le_trans hbc hab⟩

instance : IsAntisymm ListItem itemGT :=
  ⟨fun _ _ hab hba => absurd (lt_trans hab hba) (lt_irrefl _)⟩

/-- Model of `GET /lists/:id` (part_000 lines 1726-1738): the list's items ordered
by position descending, projected to album ids.  (The SQL also breaks
ties by `created_at DESC`; after a full reorder all positions are
distinct, so the tiebreak never applies.) -/

def readListItems (rows : List ListItem) : List String :=
  (List.insertionSort itemGE rows).map ListItem.spotify_album_id

/-- The rows produced by a full reorder, written directly: the submitted
ids with strictly descending positions `n, n-1, …`; `assignDesc order n`
gives the first submitted id position `n` and the last position
`n - (order.length - 1)`. -/

def assignDesc : List String → Int → List ListItem
  | [], _ => []
  | a :: as, n => ⟨a, n⟩ :: assignDesc as (n - 1)

/-- The row produced by the bulk update for the id `a` (defined for ids
that occur in `order`; for absent ids the `CASE` falls through to
`ELSE position`, a case excluded by the handler's validation). -/

def reassign (order : List String) (n : Int) (a : String) : ListItem :=
  match idxOfFirst a order with
  | some i => ⟨a, n - i⟩
  | none => ⟨a, 0⟩

/-! ## Theorems -/

theorem mapGet_mapSet_self (m : JsMap K V) (k : K) (v : V) :
    mapGet (mapSet m k v) k = some v := by
  induction m with
  | nil => simp [mapSet, mapGet]
  | cons p rest ih =>
    by_cases h : p.1 = k
    · simp [mapSet, mapGet, h]
    · simp [mapSet, mapGet, h, ih]

theorem mapGet_eq_none_iff (m : JsMap K V) (k : K) :
    mapGet m k = none ↔ k ∉ mapKeys m := by
  induction m with
  | nil => simp [mapGet, mapKeys]
  | cons p rest ih =>
    by_cases h : p.1 = k
    · simp [mapGet, mapKeys, h]
    · have hne : k ≠ p.1 := fun hk => h hk.symm
      simp only [mapKeys] at ih ⊢
      simp [mapGet, h, hne, ih]

theorem mapKeys_mapSet (m : JsMap K V) (k : K) (v : V) :
    mapKeys (mapSet m k v) = if k ∈ mapKeys m then mapKeys m else mapKeys m ++ [k] := by
  induction m with
  | nil => simp [mapSet, mapKeys]
  | cons p rest ih =>
    by_cases h : p.1 = k
    · subst h
      simp [mapSet, mapKeys]
    · have hne : k ≠ p.1 := fun hk => h hk.symm
      have hms : mapSet (p :: rest) k v = p :: mapSet rest k v := by
        simp [mapSet, h]
      rw [hms]
      have hkeys : mapKeys (p :: mapSet rest k v) = p.1 :: mapKeys (mapSet rest k v) := rfl
      rw [hkeys, ih]
      by_cases hmem : k ∈ mapKeys rest
      · rw [if_pos hmem, if_pos (show k ∈ mapKeys (p :: rest) from List.mem_cons_of_mem _ hmem)]
        rfl
      · rw [if_neg hmem, if_neg (show k ∉ mapKeys (p :: rest) from fun hk => by
          rcases List.mem_cons.mp hk with h1 | h2
          · exact hne h1
          · exact hmem h2)]
        rfl

theorem nodup_mapKeys_mapSet (m : JsMap K V) (k : K) (v : V)
    (h : (mapKeys m).Nodup) : (mapKeys (mapSet m k v)).Nodup := by
  rw [mapKeys_mapSet]
  by_cases hmem : k ∈ mapKeys m
  · simpa [hmem] using h
  · simp only [hmem, if_false]
    refine List.Nodup.append h (List.nodup_singleton k) ?_
    intro a ha hak
    simp only [List.mem_singleton] at hak
    exact hmem (hak ▸ ha)

theorem mapGet_mapDelete_self (m : JsMap K V) (k : K)
    (h : (mapKeys m).Nodup) : mapGet (mapDelete m k) k = none := by
  induction m with
  | nil => simp [mapDelete, mapGet]
  | cons p rest ih =>
    simp only [mapKeys, List.map_cons, List.nodup_cons] at h
    by_cases hpk : p.1 = k
    · subst hpk
      simp only [mapDelete, if_pos rfl]
      exact (mapGet_eq_none_iff rest p.1).mpr (by simpa [mapKeys] using h.1)
    · simp only [mapDelete, if_neg hpk, mapGet, if_neg hpk]
      exact ih (by simpa [mapKeys] using h.2)

theorem mapSet_of_fresh (m : JsMap K V) (k : K) (v : V)
    (h : k ∉ mapKeys m) : mapSet m k v = m ++ [(k, v)] := by
  induction m with
  | nil => simp [mapSet]
  | cons p rest ih =>
    simp only [mapKeys, List.map_cons, List.mem_cons] at h
    push_neg at h
    have hp : ¬ p.1 = k := fun hk => h.1 hk.symm
    simp [mapSet, hp, ih (by simpa [mapKeys] using h.2)]

theorem mapKeys_append (m l : JsMap K V) :
    mapKeys (m ++ l) = mapKeys m ++ mapKeys l := by
  simp [mapKeys]

theorem mapKeys_insertMany {V : Type} (m : JsMap K (CacheEntry V)) (ks : List K)
    (v : V) (ttl now : Int)
    (hnd : ks.Nodup) (hfresh : ∀ k ∈ ks, k ∉ mapKeys m)
    (hsize : m.length + ks.length ≤ cacheMaxEntries + 1) :
    mapKeys (insertMany m ks v ttl now) = mapKeys m ++ ks := by
  induction ks generalizing m with
  | nil => simp [insertMany]
  | cons k rest ih =>
    have hkm : k ∉ mapKeys m := hfresh k (List.mem_cons_self k rest)
    have hms : setCached m k v ttl now = m ++ [(k, ⟨v, now + ttl⟩)] := by
      unfold setCached
      have hlen : ¬ m.length > cacheMaxEntries := by
        simp only [List.length_cons] at hsize
        omega
      simp only [if_neg hlen]
      exact mapSet_of_fresh m k _ hkm
    have hstep : insertMany m (k :: rest) v ttl now
        = insertMany (m ++ [(k, ⟨v, now + ttl⟩)]) rest v ttl now := by
      simp only [insertMany, List.foldl_cons]
      rw [hms]
    have hfresh' : ∀ k' ∈ rest, k' ∉ mapKeys (m ++ [(k, (⟨v, now + ttl⟩ : CacheEntry V))]) := by
      intro k' hk'
      rw [mapKeys_append]
      simp only [List.mem_append]
      push_neg
      refine ⟨hfresh k' (List.mem_cons_of_mem k hk'), ?_⟩
      have hne : k' ≠ k := fun he => (List.nodup_cons.mp hnd).1 (he ▸ hk')
      simp [mapKeys, hne]
    have hsize' : (m ++ [(k, (⟨v, now + ttl⟩ : CacheEntry V))]).length + rest.length
        ≤ cacheMaxEntries + 1 := by
      simp [cacheMaxEntries, List.length_append, List.length_cons] at hsize ⊢
      omega
    rw [hstep, ih _ hnd.of_cons hfresh' hsize', mapKeys_append]
    simp [mapKeys]

/-- C2.  The cache bound: `setCached` clears the whole map when its size
exceeds `cacheMaxEntries = 500` before inserting.  Inserting 501 distinct
keys into an empty cache leaves 501 entries (the 501st insert sees size
500, not above the ceiling); the next insert (the 502nd distinct key)
sees size 501 > 500, clears the map, and inserts, so the size immediately
after that triggering insert is exactly 1. -/
theorem setCached_bound {V : Type} (ks : List K) (k : K) (v : V) (ttl now : Int)
    (hnd : ks.Nodup) (_hk : k ∉ ks) (hlen : ks.length = 501) :
    (insertMany ([] : JsMap K (CacheEntry V)) ks v ttl now).length = 501 ∧
    (insertMany ([] : JsMap K (CacheEntry V)) (ks ++ [k]) v ttl now).length = 1 := by
  have hkeys : mapKeys (insertMany ([] : JsMap K (CacheEntry V)) ks v ttl now) = ks := by
    have h := mapKeys_insertMany ([] : JsMap K (CacheEntry V)) ks v ttl now hnd
      (by simp [mapKeys]) (by simp [hlen, cacheMaxEntries])
    simpa [mapKeys] using h
  have hlen501 : (insertMany ([] : JsMap K (CacheEntry V)) ks v ttl now).length = 501 := by
    have h : (mapKeys (insertMany ([] : JsMap K (CacheEntry V)) ks v ttl now)).length
        = ks.length := by rw [hkeys]
    simpa [mapKeys, hlen] using h
  refine ⟨hlen501, ?_⟩
  have happ : insertMany ([] : JsMap K (CacheEntry V)) (ks ++ [k]) v ttl now
      = setCached (insertMany ([] : JsMap K (CacheEntry V)) ks v ttl now) k v ttl now := by
    simp [insertMany, List.foldl_append]
  rw [happ]
  unfold setCached
  have hbig : (insertMany ([] : JsMap K (CacheEntry V)) ks v ttl now).length > cacheMaxEntries := by
    rw [hlen501]
    simp [cacheMaxEntries]
  rw [if_pos hbig]
  simp [mapSet]

/-- Witness for C2: inserting the 502 distinct keys `0, …, 501` into an
empty cache leaves exactly one entry. -/
theorem setCached_bound_witness :
    (insertMany ([] : JsMap Nat (CacheEntry Nat)) (List.range 501 ++ [501]) 0 60000 0).length = 1 :=
  (setCached_bound (List.range 501) 501 0 60000 0 (List.nodup_range 501)
    (by simp [List.mem_range]) (by simp)).2

/-- C1.  `setCached` then `getCached` on the same key: before the entry's
expiry instant (`now + ttl`) the stored value is returned unchanged;
after it has passed, `getCached` reports a miss and removes the entry
from the map.  The map's keys are unique, as for any JavaScript `Map`. -/
theorem getCached_after_setCached {V : Type} (m : JsMap K (CacheEntry V))
    (k : K) (v : V) (ttl now t : Int)
    (hkeys : (mapKeys m).Nodup) (httl : 0 < ttl) :
    (t ≤ now + ttl → getCached (setCached m k v ttl now) k t = (some v, setCached m k v ttl now)) ∧
    (now + ttl < t →
      (getCached (setCached m k v ttl now) k t).1 = none ∧
      mapGet (getCached (setCached m k v ttl now) k t).2 k = (none : Option (CacheEntry V))) := by
  have hget : mapGet (setCached m k v ttl now) k = some ⟨v, now + ttl⟩ := by
    unfold setCached
    exact mapGet_mapSet_self _ k _
  have hnodup : (mapKeys (setCached m k v ttl now)).Nodup := by
    unfold setCached
    by_cases h : m.length > cacheMaxEntries
    · simp only [if_pos h]
      exact nodup_mapKeys_mapSet [] k _ (by simp [mapKeys])
    · simp only [if_neg h]
      exact nodup_mapKeys_mapSet m k _ hkeys
  constructor
  · intro ht
    have hle : ¬ t > now + ttl := not_lt.mpr ht
    simp [getCached, hget, hle]
  · intro ht
    have hgt : t > now + ttl := ht
    refine ⟨?_, ?_⟩
    · simp [getCached, hget, hgt]
    · simp only [getCached, hget]
      rw [if_pos hgt]
      exact mapGet_mapDelete_self _ k hnodup

/-- Witness for C1 at a concrete instance: key `"k"`, value `42`,
ttl `60000` set at instant `0`; a read at `10` hits, a read at
`70000` misses and removes the entry. -/
theorem getCached_after_setCached_witness :
    (getCached (setCached ([] : JsMap String (CacheEntry Nat)) "k" 42 60000 0) "k" 10).1 = some 42 ∧
    (getCached (setCached ([] : JsMap String (CacheEntry Nat)) "k" 42 60000 0) "k" 70000).1 = none := by
  refine ⟨?_, ?_⟩
  · have h := (getCached_after_setCached ([] : JsMap String (CacheEntry Nat)) "k" 42 60000 0 10
      (by simp [mapKeys]) (by decide)).1 (by decide)
    rw [h]
  · exact ((getCached_after_setCached ([] : JsMap String (CacheEntry Nat)) "k" 42 60000 0 70000
      (by simp [mapKeys]) (by decide)).2 (by decide)).1

theorem rateLimit_fresh (now : Int) :
    rateLimit none now = (none, ⟨1, now + rateLimitWindowMs⟩) := by
  simp [rateLimit, rateLimitMax]

theorem rateLimit_inWindow (c : Nat) (R now : Int) (hle : now ≤ R)
    (hc : c + 1 ≤ rateLimitMax) :
    rateLimit (some ⟨c, R⟩) now = (none, ⟨c + 1, R⟩) := by
  have ht : ¬ now > R := not_lt.mpr hle
  have hcount : ¬ c + 1 > rateLimitMax := not_lt.mpr hc
  simp [rateLimit, ht, hcount]

theorem runRequests_in_window (c : Nat) (R : Int) (ts : List Int)
    (hin : ∀ t ∈ ts, t ≤ R) (hc : c + ts.length ≤ rateLimitMax) :
    runRequests (some ⟨c, R⟩) ts = (List.replicate ts.length none, some ⟨c + ts.length, R⟩) := by
  induction ts generalizing c with
  | nil => simp [runRequests]
  | cons t ts ih =>
    have hstep : rateLimit (some ⟨c, R⟩) t = (none, ⟨c + 1, R⟩) :=
      rateLimit_inWindow c R t (hin t (List.mem_cons_self t ts))
        (by simp only [List.length_cons] at hc; omega)
    have hrec := ih (c + 1) (fun t' ht' => hin t' (List.mem_cons_of_mem _ ht'))
      (by simp only [List.length_cons] at hc; omega)
    have harith : c + 1 + ts.length = c + (ts.length + 1) := by omega
    simp only [runRequests, hstep, hrec, List.replicate_succ, List.length_cons, harith]

theorem runRequests_append (st : Option RLEntry) (l1 l2 : List Int) :
    runRequests st (l1 ++ l2)
      = ((runRequests st l1).1 ++ (runRequests (runRequests st l1).2 l2).1,
         (runRequests (runRequests st l1).2 l2).2) := by
  induction l1 generalizing st with
  | nil => simp [runRequests]
  | cons t l1 ih => simp [runRequests, ih]

/-- C3.  Fixed-window limiting for a single client key: starting with no
stored window, 61 requests all arriving within the 60-second window
opened by the first one are answered with 60 successes followed by a 429
on the 61st.  Moreover a request arriving when no window exists, or when
the stored window's `resetAt` has elapsed, starts a fresh window (count
0 at creation, 1 after counting that request) with
`resetAt = now + 60_000`, and is itself admitted. -/
theorem rateLimit_spec (t0 : Int) (ts : List Int) (tlast : Int) (e : RLEntry) (now : Int)
    (hlen : ts.length = 59)
    (hin : ∀ t ∈ ts, t ≤ t0 + rateLimitWindowMs)
    (hlast : tlast ≤ t0 + rateLimitWindowMs)
    (hstale : e.resetAt < now) :
    (runRequests none (t0 :: (ts ++ [tlast]))).1 = List.replicate 60 none ++ [some 429] ∧
    rateLimit none now = (none, ⟨1, now + rateLimitWindowMs⟩) ∧
    rateLimit (some e) now = (none, ⟨1, now + rateLimitWindowMs⟩) := by
  refine ⟨?_, rateLimit_fresh now, ?_⟩
  · have h0 : rateLimit none t0 = (none, ⟨1, t0 + rateLimitWindowMs⟩) := rateLimit_fresh t0
    have hmid := runRequests_in_window 1 (t0 + rateLimitWindowMs) ts hin
      (by simp [rateLimitMax, hlen])
    have hlastreq : rateLimit (some ⟨1 + ts.length, t0 + rateLimitWindowMs⟩) tlast
        = (some 429, ⟨1 + ts.length + 1, t0 + rateLimitWindowMs⟩) := by
      have ht : ¬ tlast > t0 + rateLimitWindowMs := not_lt.mpr hlast
      have hcount : 1 + ts.length + 1 > rateLimitMax := by
        simp [rateLimitMax, hlen]
      simp [rateLimit, ht, hcount]
    simp only [runRequests, h0, runRequests_append, hmid, hlastreq, runRequests]
    simp [hlen, List.replicate_succ]
  · have ht : now > e.resetAt := hstale
    simp [rateLimit, ht, rateLimitMax]

/-- Witness for C3: 61 requests all at instant 0; the first 60 are
admitted and the 61st is answered 429.  A fresh request at instant 1
against a window that reset at instant 0 opens a new window. -/
theorem rateLimit_spec_witness :
    (runRequests none ((0 : Int) :: (List.replicate 59 (0 : Int) ++ [(0 : Int)]))).1
      = List.replicate 60 none ++ [some 429] :=
  (rateLimit_spec 0 (List.replicate 59 0) 0 ⟨0, 0⟩ 1
    (by simp) (by intro t ht; simp [List.eq_of_mem_replicate ht, rateLimitWindowMs])
    (by simp [rateLimitWindowMs]) (by norm_num)).1

/-- C6.  `getAccessTokenForUser` fails with `missing_refresh_token`
exactly when the user has no stored refresh token; when the refresh
exchange yields a new refresh token `nrt`, exactly one database update
is issued and it stores `nrt` (the new value); when the provider returns
no new refresh token, no database write occurs. -/
theorem getAccessTokenForUser_spec (userId : Nat) (dbValue : Option String)
    (resp : TokenResponse) :
    (getAccessTokenForUser userId dbValue resp = .error .missingRefreshToken
      ↔ getUserRefreshToken dbValue = none) ∧
    (∀ old nrt, getUserRefreshToken dbValue = some old →
      (refreshAccessToken resp).2 = some nrt →
      getAccessTokenForUser userId dbValue resp
        = .ok ((refreshAccessToken resp).1, [⟨userId, nrt⟩])) ∧
    (∀ old, getUserRefreshToken dbValue = some old →
      (refreshAccessToken resp).2 = none →
      getAccessTokenForUser userId dbValue resp
        = .ok ((refreshAccessToken resp).1, [])) := by
  refine ⟨?_, ?_, ?_⟩
  · cases hdb : getUserRefreshToken dbValue with
    | none => simp [getAccessTokenForUser, hdb]
    | some old =>
      cases hr : (refreshAccessToken resp).2 with
      | none => simp [getAccessTokenForUser, hdb, hr]
      | some nrt => simp [getAccessTokenForUser, hdb, hr]
  · intro old nrt hdb hr
    simp [getAccessTokenForUser, hdb, hr]
  · intro old hdb hr
    simp [getAccessTokenForUser, hdb, hr]

/-- Witness for C6 at concrete inputs: no stored token fails; a stored
token with a rotated refresh token issues exactly the one update with
the new value; without rotation no write happens. -/
theorem getAccessTokenForUser_spec_witness :
    getAccessTokenForUser 7 none ⟨"at", some "new", 3600⟩ = .error .missingRefreshToken ∧
    getAccessTokenForUser 7 (some "old") ⟨"at", some "new", 3600⟩ = .ok ("at", [⟨7, "new"⟩]) ∧
    getAccessTokenForUser 7 (some "old") ⟨"at", none, 3600⟩ = .ok ("at", []) := by
  refine ⟨?_, ?_, ?_⟩
  · exact (getAccessTokenForUser_spec 7 none ⟨"at", some "new", 3600⟩).1.mpr (by decide)
  · exact (getAccessTokenForUser_spec 7 (some "old") ⟨"at", some "new", 3600⟩).2.1
      "old" "new" (by decide) (by decide)
  · exact (getAccessTokenForUser_spec 7 (some "old") ⟨"at", none, 3600⟩).2.2
      "old" (by decide) (by decide)

/-- C7.  The cached app token is returned (with unchanged state)
whenever one exists and the current time is more than 60 seconds before
the recorded expiry; otherwise the freshly fetched token is returned and
cached with expiry `now + expires_in` seconds. -/
theorem getAppAccessToken_spec (st : AppTokenState) (now : Int) (resp : ClientCredsResponse) :
    (∀ t, st.token = some t → t ≠ "" → st.expiresAt - now > 60000 →
      getAppAccessToken st now resp = (t, st)) ∧
    (¬ (tokenTruthy st.token = true ∧ now < st.expiresAt - 60000) →
      getAppAccessToken st now resp
        = (resp.access_token, ⟨some resp.access_token, now + resp.expires_in * 1000⟩)) := by
  constructor
  · intro t ht hne hmargin
    have hcond : tokenTruthy st.token = true ∧ now < st.expiresAt - 60000 := by
      refine ⟨?_, by omega⟩
      simp [tokenTruthy, ht, hne]
    unfold getAppAccessToken
    rw [if_pos hcond, ht]
    rfl
  · intro h
    simp only [getAppAccessToken, if_neg h]

/-- Witness for C7: a cached token `"tok"` expiring at `100000` is
returned unchanged at instant `0`; with an empty cache the fetched token
is cached with expiry `now + expires_in * 1000`. -/
theorem getAppAccessToken_spec_witness :
    getAppAccessToken ⟨some "tok", 100000⟩ 0 ⟨"new", 3600⟩ = ("tok", ⟨some "tok", 100000⟩) ∧
    getAppAccessToken ⟨none, 0⟩ 5 ⟨"new", 3600⟩ = ("new", ⟨some "new", 5 + 3600 * 1000⟩) := by
  constructor
  · exact (getAppAccessToken_spec ⟨some "tok", 100000⟩ 0 ⟨"new", 3600⟩).1
      "tok" rfl (by decide) (by decide)
  · exact (getAppAccessToken_spec ⟨none, 0⟩ 5 ⟨"new", 3600⟩).2 (by decide)

/-- C8.  Cache-key composition: two query strings equal up to
leading/trailing whitespace and letter case produce identical cache keys
under the same namespace and limit, and hence a search stored under the
first key is a cache hit when looked up under the second within the
TTL. -/
theorem searchCacheId_equiv {V : Type} (cacheKey : String) (limit : Option Int)
    (q1 q2 : String) (h : jsToLowerCase (jsTrim q1) = jsToLowerCase (jsTrim q2)) :
    searchCacheId cacheKey limit q1 = searchCacheId cacheKey limit q2 ∧
    ∀ (m : JsMap String (CacheEntry V)) (v : V) (ttl now t : Int),
      t ≤ now + ttl →
      (getCached (setCached m (searchCacheId cacheKey limit q1) v ttl now)
        (searchCacheId cacheKey limit q2) t).1 = some v := by
  have hkey : searchCacheId cacheKey limit q1 = searchCacheId cacheKey limit q2 := by
    simp [searchCacheId, h]
  refine ⟨hkey, ?_⟩
  intro m v ttl now t ht
  rw [hkey]
  have hget : mapGet (setCached m (searchCacheId cacheKey limit q2) v ttl now)
      (searchCacheId cacheKey limit q2) = some ⟨v, now + ttl⟩ := by
    unfold setCached
    exact mapGet_mapSet_self _ _ _
  have hexp : ¬ t > now + ttl := not_lt.mpr ht
  simp [getCached, hget, hexp]

/-- Witness for C8: `" Hello "` and `"hello"` produce the same cache key
and the second lookup hits. -/
theorem searchCacheId_equiv_witness :
    searchCacheId "app" (some 10) " Hello " = searchCacheId "app" (some 10) "hello" ∧
    (getCached (setCached ([] : JsMap String (CacheEntry Nat))
        (searchCacheId "app" (some 10) " Hello ") 42 60000 0)
      (searchCacheId "app" (some 10) "hello") 10).1 = some 42 := by
  have h := searchCacheId_equiv (V := Nat) "app" (some 10) " Hello " "hello" (by decide)
  exact ⟨h.1, h.2 [] 42 60000 0 10 (by decide)⟩

/-- C10 (amended).  The effective search limit: an absent or empty
`limit` parameter defaults to 10; whenever the computation produces an
integer it lies in `1..20`; and a non-empty parameter that `parseInt`
can parse is clamped into `1..20`.  (A non-numeric parameter yields
`NaN`, modelled as `none`, which is not an integer in range — see the
counterexample.) -/
theorem effectiveSearchLimit_spec (limitRaw : Option String) :
    ((limitRaw = none ∨ limitRaw = some "") → effectiveSearchLimit limitRaw = some 10) ∧
    (∀ k, effectiveSearchLimit limitRaw = some k → 1 ≤ k ∧ k ≤ 20) ∧
    (∀ s v, limitRaw = some s → s ≠ "" → jsParseInt s = some v →
      effectiveSearchLimit limitRaw = some (min (max v 1) 20)) := by
  refine ⟨?_, ?_, ?_⟩
  · rintro (h | h) <;> subst h <;> decide
  · intro k hk
    unfold effectiveSearchLimit at hk
    generalize (match limitRaw with
      | none => "10"
      | some s => if s = "" then "10" else s) = raw at hk
    cases hp : jsParseInt raw with
    | none => rw [hp] at hk; cases hk
    | some v =>
      rw [hp] at hk
      simp only [Option.some.injEq] at hk
      subst hk
      omega
  · intro s v hs hne hp
    subst hs
    simp only [effectiveSearchLimit, if_neg hne, hp]

/-- Counterexample for C10 as stated: the request `?limit=abc` does not
produce an integer limit in `1..20` — `parseInt('abc', 10)` is `NaN` and
`NaN` survives the `Math.max`/`Math.min` clamp. -/
theorem effectiveSearchLimit_counterexample :
    effectiveSearchLimit (some "abc") = none ∧
    ¬ ∃ k : Int, effectiveSearchLimit (some "abc") = some k ∧ 1 ≤ k ∧ k ≤ 20 := by
  refine ⟨by decide, ?_⟩
  rintro ⟨k, hk, -⟩
  rw [show effectiveSearchLimit (some "abc") = none from by decide] at hk
  cases hk

/-- Witness for C10 (amended): an absent parameter yields 10; `"5"`
yields 5; `"100"` is clamped to 20. -/
theorem effectiveSearchLimit_spec_witness :
    effectiveSearchLimit none = some 10 ∧
    effectiveSearchLimit (some "5") = some 5 ∧
    effectiveSearchLimit (some "100") = some 20 := by
  refine ⟨(effectiveSearchLimit_spec none).1 (Or.inl rfl), ?_, ?_⟩
  · have h := (effectiveSearchLimit_spec (some "5")).2.2 "5" 5 rfl (by decide) (by decide)
    rw [h]
    decide
  · have h := (effectiveSearchLimit_spec (some "100")).2.2 "100" 100 rfl (by decide) (by decide)
    rw [h]
    decide

/-- C9.  Review creation: any parsed rating outside `1..10` (including a
non-numeric rating, which parses to `NaN`) is rejected with 400
`rating_invalid`; an authenticated request with rating 7 and a body
whose trimmed length is under 2000 characters is answered 201 with the
created review echoed together with the user fields. -/
theorem postReview_spec (uid : Nat) (albumId : String) (bodyField : BodyVal)
    (insertedId : Nat) (createdAt : String) (userRow : Option UserRow)
    (halbum : albumId ≠ "") :
    (∀ r : Int, r < 1 ∨ r > 10 →
      postReview (some uid) albumId (some r) bodyField insertedId createdAt userRow
        = .badRequest "rating_invalid") ∧
    (postReview (some uid) albumId none bodyField insertedId createdAt userRow
      = .badRequest "rating_invalid") ∧
    (∀ s : String, (jsTrim s).length < 2000 →
      postReview (some uid) albumId (some 7) (.str s) insertedId createdAt userRow
        = .created
            { id := insertedId
              rating := 7
              body := if (jsTrim s).length > 0 then some (jsTrim s) else none
              created_at := createdAt
              user_id := reviewEchoUserId userRow uid
              user_display_name := jsStringOrNull (userRow.bind UserRow.display_name)
              user_spotify_id := jsStringOrNull (userRow.bind UserRow.spotify_id) }) := by
  refine ⟨?_, ?_, ?_⟩
  · intro r hr
    simp [postReview, halbum, hr]
  · simp [postReview, halbum]
  · intro s hs
    have hrating : ¬ ((7 : Int) < 1 ∨ (7 : Int) > 10) := by omega
    by_cases hlen : (jsTrim s).length > 0
    · have hbody : bodyTooLong (some (jsTrim s)) = false := by
        simp [bodyTooLong]
        omega
      simp [postReview, halbum, hrating, hlen, hbody]
    · simp [postReview, halbum, hrating, hlen, bodyTooLong]

/-- Witness for C9: `rating=11` on album `"XYZ"` is rejected with
`rating_invalid`; `rating=7` with body `"great"` is created with the
echoed review and user fields. -/
theorem postReview_spec_witness :
    postReview (some 1) "XYZ" (some 11) (.str "great") 5 "2024-01-01" none
      = .badRequest "rating_invalid" ∧
    postReview (some 1) "XYZ" (some 7) (.str "great") 5 "2024-01-01"
        (some ⟨1, some "Ada", some "ada"⟩)
      = .created ⟨5, 7, some "great", "2024-01-01", 1, some "Ada", some "ada"⟩ := by
  constructor
  · exact (postReview_spec 1 "XYZ" (.str "great") 5 "2024-01-01" none (by decide)).1
      11 (by omega)
  · have h := (postReview_spec 1 "XYZ" (.str "great") 5 "2024-01-01"
      (some ⟨1, some "Ada", some "ada"⟩) (by decide)).2.2 "great" (by decide)
    rw [h]
    decide

theorem stringMk_toList (s : String) : String.mk s.toList = s := by
  cases s
  rfl

theorem dropWhile_eq_self_of_forall {p : Char → Bool} (l : List Char)
    (h : ∀ c ∈ l, p c = false) : l.dropWhile p = l := by
  cases l with
  | nil => rfl
  | cons c cs => simp [List.dropWhile_cons, h c (List.mem_cons_self c cs)]

theorem not_whitespace_of_valid (s : String) (hs : isValidSpotifyId s = true) :
    ∀ c ∈ s.toList, c.isWhitespace = false := by
  intro c hc
  have hall := (Bool.and_eq_true _ _).mp hs |>.2
  have halnum : (c.isAlpha || c.isDigit) = true := List.all_eq_true.mp hall c hc
  by_contra hw
  have hw' : c.isWhitespace = true := by
    cases hcw : c.isWhitespace
    · exact absurd hcw hw
    · rfl
  have h4 : ((c = ' ' ∨ c = '\t') ∨ c = '\r') ∨ c = '\n' := by
    simpa [Char.isWhitespace] using hw'
  rcases h4 with ((h1 | h1) | h1) | h1 <;> subst h1 <;> exact absurd halnum (by decide)

theorem jsTrim_of_valid (s : String) (hs : isValidSpotifyId s = true) : jsTrim s = s := by
  have hnw := not_whitespace_of_valid s hs
  unfold jsTrim
  rw [dropWhile_eq_self_of_forall _ hnw,
    dropWhile_eq_self_of_forall _ (fun c hc => hnw c (List.mem_reverse.mp hc)),
    List.reverse_reverse, stringMk_toList]

theorem length_of_valid (s : String) (hs : isValidSpotifyId s = true) : s.length = 22 := by
  have h := (Bool.and_eq_true _ _).mp hs |>.1
  simpa using h

theorem filterMap_str (order : List String) :
    (order.map BodyVal.str).filterMap (fun v => match v with
      | BodyVal.str s => some s
      | BodyVal.nonString => none) = order := by
  induction order with
  | nil => rfl
  | cons a as ih => simp [List.filterMap_cons, ih]

theorem sanitizeOrder_map_str (order : List String)
    (hvalid : ∀ id ∈ order, isValidSpotifyId id = true) :
    sanitizeOrder (order.map BodyVal.str) = order := by
  unfold sanitizeOrder
  rw [filterMap_str]
  have h2 : order.map jsTrim = order := by
    rw [List.map_congr_left (fun a ha => jsTrim_of_valid a (hvalid a ha))]
    exact List.map_id' order
  rw [h2]
  apply List.filter_eq_self.mpr
  intro a ha
  simp [length_of_valid a (hvalid a ha)]

/-- C5 (amended).  Rejections of the reorder submission, in the code's
check order: a submission containing a duplicated id is rejected 400
`order_duplicate` (this check runs before the set comparison); a
duplicate-free submission whose id set does not exactly match the
existing item set — size mismatch or any submitted id missing from the
existing items — is rejected 400 `order_mismatch`.  In both cases the
result carries no updated rows: no partial reorder is applied. -/
theorem reorder_reject_spec (listExists : Bool) (rows : List ListItem) (l : Int)
    (order : List String)
    (hl : l ≠ 0)
    (hne : order ≠ [])
    (hvalid : ∀ id ∈ order, isValidSpotifyId id = true) :
    (¬ order.Nodup →
      reorderCore listExists rows (some l) (order.map BodyVal.str)
        = .badRequest "order_duplicate") ∧
    (order.Nodup → listExists = true →
      ((rows.map ListItem.spotify_album_id).length ≠ order.length ∨
        ∃ id ∈ order, id ∉ rows.map ListItem.spotify_album_id) →
      reorderCore listExists rows (some l) (order.map BodyVal.str)
        = .badRequest "order_mismatch") := by
  have hsan : sanitizeOrder (order.map BodyVal.str) = order := sanitizeOrder_map_str order hvalid
  have hid : ¬ ((some l : Option Int) = none ∨ (some l : Option Int) = some 0) := by
    simp [hl]
  have hempty : ¬ order.isEmpty = true := by
    cases order with
    | nil => exact absurd rfl hne
    | cons a as => simp
  have hval : ¬ order.any (fun id => !(isValidSpotifyId id)) = true := by
    rw [List.any_eq_true]
    rintro ⟨id, hmem, hbad⟩
    rw [hvalid id hmem] at hbad
    exact absurd hbad (by decide)
  constructor
  · intro hdup
    unfold reorderCore
    rw [hsan, if_neg hid, if_neg hempty, if_neg hval, if_pos hdup]
  · intro hnd hex hmis
    unfold reorderCore
    rw [hsan, if_neg hid, if_neg hempty, if_neg hval, if_neg (not_not_intro hnd),
      if_neg (show ¬ ¬ listExists = true from not_not_intro hex)]
    by_cases hlen : (rows.map ListItem.spotify_album_id).length ≠ order.length
    · rw [if_pos hlen]
    · rw [if_neg hlen]
      rcases hmis with hmis | ⟨id, hidmem, hidnot⟩
      · exact absurd hmis hlen
      · rw [if_pos (List.any_eq_true.mpr ⟨id, hidmem, by simp [hidnot]⟩)]

/-- Counterexample for C5 as stated: submitting
`["aaa…a", "aaa…a"]` (a duplicated valid id) against a list whose only
item is `"bbb…b"` is a set mismatch (size 2 ≠ 1, and the submitted id is
not among the existing items), yet the handler answers `order_duplicate`,
not `order_mismatch`, because the duplicate check runs first. -/
theorem reorder_mismatch_counterexample :
    (sanitizeOrder [BodyVal.str "aaaaaaaaaaaaaaaaaaaaaa", BodyVal.str "aaaaaaaaaaaaaaaaaaaaaa"]).length
        ≠ ((([⟨"bbbbbbbbbbbbbbbbbbbbbb", 1⟩] : List ListItem)).map ListItem.spotify_album_id).length ∧
    "aaaaaaaaaaaaaaaaaaaaaa"
        ∈ sanitizeOrder [BodyVal.str "aaaaaaaaaaaaaaaaaaaaaa", BodyVal.str "aaaaaaaaaaaaaaaaaaaaaa"] ∧
    "aaaaaaaaaaaaaaaaaaaaaa"
        ∉ (([⟨"bbbbbbbbbbbbbbbbbbbbbb", 1⟩] : List ListItem)).map ListItem.spotify_album_id ∧
    reorderCore true [⟨"bbbbbbbbbbbbbbbbbbbbbb", 1⟩] (some 1)
        [BodyVal.str "aaaaaaaaaaaaaaaaaaaaaa", BodyVal.str "aaaaaaaaaaaaaaaaaaaaaa"]
      = .badRequest "order_duplicate" ∧
    ReorderResult.badRequest "order_duplicate" ≠ ReorderResult.badRequest "order_mismatch" := by
  refine ⟨by decide, by decide, by decide, by decide, by decide⟩

/-- Witness for C5 (amended): a duplicated pair is rejected
`order_duplicate`; a duplicate-free submission of one valid id against a
list holding a different id is rejected `order_mismatch`. -/
theorem reorder_reject_spec_witness :
    reorderCore true [⟨"bbbbbbbbbbbbbbbbbbbbbb", 1⟩] (some 1)
        [BodyVal.str "aaaaaaaaaaaaaaaaaaaaaa", BodyVal.str "aaaaaaaaaaaaaaaaaaaaaa"]
      = .badRequest "order_duplicate" ∧
    reorderCore true [⟨"bbbbbbbbbbbbbbbbbbbbbb", 1⟩] (some 1)
        [BodyVal.str "aaaaaaaaaaaaaaaaaaaaaa"]
      = .badRequest "order_mismatch" := by
  constructor
  · exact (reorder_reject_spec true [⟨"bbbbbbbbbbbbbbbbbbbbbb", 1⟩] 1
      ["aaaaaaaaaaaaaaaaaaaaaa", "aaaaaaaaaaaaaaaaaaaaaa"] (by decide) (by decide)
      (by decide)).1 (by decide)
  · exact (reorder_reject_spec true [⟨"bbbbbbbbbbbbbbbbbbbbbb", 1⟩] 1
      ["aaaaaaaaaaaaaaaaaaaaaa"] (by decide) (by decide) (by decide)).2
      (by decide) rfl (Or.inr ⟨"aaaaaaaaaaaaaaaaaaaaaa", by decide, by decide⟩)

theorem idxOfFirst_eq_none_iff (a : String) (l : List String) :
    idxOfFirst a l = none ↔ a ∉ l := by
  induction l with
  | nil => simp [idxOfFirst]
  | cons b rest ih =>
    by_cases h : b = a
    · simp [idxOfFirst, h]
    · have hne : a ≠ b := fun hh => h hh.symm
      simp [idxOfFirst, h, hne, ih]

theorem assignDesc_map_id (order : List String) (n : Int) :
    (assignDesc order n).map ListItem.spotify_album_id = order := by
  induction order generalizing n with
  | nil => rfl
  | cons a as ih => simp [assignDesc, ih]

theorem assignDesc_eq_map (order : List String) (hnd : order.Nodup) (n : Int) :
    assignDesc order n = order.map (reassign order n) := by
  induction order generalizing n with
  | nil => rfl
  | cons a as ih =>
    have hnd' := List.nodup_cons.mp hnd
    have hhead : reassign (a :: as) n a = ⟨a, n⟩ := by
      simp [reassign, idxOfFirst]
    have htail : ∀ b ∈ as, reassign (a :: as) n b = reassign as (n - 1) b := by
      intro b hb
      have hba : ¬ a = b := fun h => hnd'.1 (h ▸ hb)
      have hstep : idxOfFirst b (a :: as) = (idxOfFirst b as).map (· + 1) := by
        simp [idxOfFirst, hba]
      unfold reassign
      rw [hstep]
      cases hio : idxOfFirst b as with
      | none => simp
      | some i =>
        simp only [Option.map_some']
        show (⟨b, n - ((i + 1 : Nat) : Int)⟩ : ListItem) = ⟨b, (n - 1) - ((i : Nat) : Int)⟩
        congr 1
        push_cast
        ring
    rw [List.map_cons, hhead, List.map_congr_left htail, assignDesc, ih hnd'.2 (n - 1)]

theorem pos_le_of_mem_assignDesc (as : List String) (m : Int) (r : ListItem)
    (h : r ∈ assignDesc as m) : r.position ≤ m := by
  induction as generalizing m with
  | nil => simp [assignDesc] at h
  | cons a as ih =>
    simp only [assignDesc, List.mem_cons] at h
    rcases h with h | h
    · simp [h]
    · have := ih (m - 1) h
      omega

theorem sorted_assignDesc (as : List String) (m : Int) :
    (assignDesc as m).Sorted itemGT := by
  induction as generalizing m with
  | nil => simp [assignDesc, List.Sorted]
  | cons a as ih =>
    rw [show assignDesc (a :: as) m = ⟨a, m⟩ :: assignDesc as (m - 1) from rfl,
      List.sorted_cons]
    refine ⟨?_, ih (m - 1)⟩
    intro b hb
    have := pos_le_of_mem_assignDesc as (m - 1) b hb
    show b.position < (⟨a, m⟩ : ListItem).position
    simp only []
    omega

theorem nodup_positions_of_sorted (l : List ListItem) (h : l.Sorted itemGT) :
    (l.map ListItem.position).Nodup := by
  have hp : l.Pairwise (fun a b : ListItem => a.position ≠ b.position) :=
    h.imp (fun hab => ne_of_gt hab)
  exact List.pairwise_map.mpr hp

theorem sorted_gt_of_sorted_ge (l : List ListItem) (hge : l.Sorted itemGE)
    (hnd : (l.map ListItem.position).Nodup) : l.Sorted itemGT := by
  have hne : l.Pairwise (fun a b : ListItem => a.position ≠ b.position) :=
    List.pairwise_map.mp hnd
  exact (hge.and hne).imp (fun hab => lt_of_le_of_ne hab.1 hab.2.symm)

theorem applyReorder_eq_map (rows : List ListItem) (order : List String)
    (hsub : ∀ r ∈ rows, r.spotify_album_id ∈ order) :
    applyReorder rows order
      = (rows.map ListItem.spotify_album_id).map (reassign order (order.length : Int)) := by
  unfold applyReorder
  rw [List.map_map]
  apply List.map_congr_left
  intro r hr
  cases hio : idxOfFirst r.spotify_album_id order with
  | none =>
    exact absurd (hsub r hr) ((idxOfFirst_eq_none_iff _ _).mp hio)
  | some i =>
    simp [reassign, hio]

theorem ids_perm_order (rows : List ListItem) (order : List String)
    (hnd : order.Nodup)
    (hlen : (rows.map ListItem.spotify_album_id).length = order.length)
    (hsub : ∀ id ∈ order, id ∈ rows.map ListItem.spotify_album_id) :
    (rows.map ListItem.spotify_album_id).Perm order := by
  have hsp : List.Subperm order (rows.map ListItem.spotify_album_id) :=
    hnd.subperm (fun id h => hsub id h)
  exact (hsp.perm_of_length_le (le_of_eq hlen)).symm

/-- C4.  A valid full permutation submitted to the reorder endpoint is
accepted and its bulk `CASE` update assigns strictly descending
positions: sorting the updated rows by position descending yields
exactly `assignDesc order n` — the submitted ids with positions
`n, n - 1, …, 1`, the first submitted id carrying position `n` and the
last position `1` — and therefore the subsequent `GET /lists/:id` read
(ordered by position descending) returns the items in exactly the
submitted order. -/
theorem reorder_valid_permutation (rows : List ListItem) (order : List String) (l : Int)
    (hl : l ≠ 0)
    (hne : order ≠ [])
    (hvalid : ∀ id ∈ order, isValidSpotifyId id = true)
    (hnd : order.Nodup)
    (hlen : (rows.map ListItem.spotify_album_id).length = order.length)
    (hsub : ∀ id ∈ order, id ∈ rows.map ListItem.spotify_album_id) :
    reorderCore true rows (some l) (order.map BodyVal.str) = .ok (applyReorder rows order) ∧
    List.insertionSort itemGE (applyReorder rows order)
      = assignDesc order (order.length : Int) ∧
    readListItems (applyReorder rows order) = order := by
  have hperm := ids_perm_order rows order hnd hlen hsub
  have hsub' : ∀ r ∈ rows, r.spotify_album_id ∈ order := by
    intro r hr
    exact hperm.subset (List.mem_map_of_mem ListItem.spotify_album_id hr)
  have hperm1 : (applyReorder rows order).Perm (assignDesc order (order.length : Int)) := by
    rw [applyReorder_eq_map rows order hsub',
      assignDesc_eq_map order hnd (order.length : Int)]
    exact hperm.map (reassign order (order.length : Int))
  have hsort : List.insertionSort itemGE (applyReorder rows order)
      = assignDesc order (order.length : Int) := by
    have hperm_res : (List.insertionSort itemGE (applyReorder rows order)).Perm
        (assignDesc order (order.length : Int)) :=
      (List.perm_insertionSort itemGE (applyReorder rows order)).trans hperm1
    have hnd_target := nodup_positions_of_sorted _ (sorted_assignDesc order (order.length : Int))
    have hnd_res : ((List.insertionSort itemGE (applyReorder rows order)).map
        ListItem.position).Nodup :=
      ((hperm_res.map ListItem.position).nodup_iff).mpr hnd_target
    have hstrict := sorted_gt_of_sorted_ge _
      (List.sorted_insertionSort itemGE (applyReorder rows order)) hnd_res
    exact List.eq_of_perm_of_sorted hperm_res hstrict
      (sorted_assignDesc order (order.length : Int))
  refine ⟨?_, hsort, ?_⟩
  · have hsan : sanitizeOrder (order.map BodyVal.str) = order := sanitizeOrder_map_str order hvalid
    have hid : ¬ ((some l : Option Int) = none ∨ (some l : Option Int) = some 0) := by
      simp [hl]
    have hempty : ¬ order.isEmpty = true := by
      cases order with
      | nil => exact absurd rfl hne
      | cons a as => simp
    have hval : ¬ order.any (fun id => !(isValidSpotifyId id)) = true := by
      rw [List.any_eq_true]
      rintro ⟨id, hmem, hbad⟩
      rw [hvalid id hmem] at hbad
      exact absurd hbad (by decide)
    have hmiss : ¬ order.any
        (fun id => !((rows.map ListItem.spotify_album_id).contains id)) = true := by
      rw [List.any_eq_true]
      rintro ⟨id, hmem, hbad⟩
      have : (rows.map ListItem.spotify_album_id).contains id = true := by
        simpa using hsub id hmem
      rw [this] at hbad
      exact absurd hbad (by decide)
    unfold reorderCore
    rw [hsan, if_neg hid, if_neg hempty, if_neg hval, if_neg (not_not_intro hnd),
      if_neg (show ¬ ¬ (true : Bool) = true from by simp),
      if_neg (not_not_intro hlen), if_neg hmiss]
  · unfold readListItems
    rw [hsort, assignDesc_map_id]

/-- Witness for C4: the list holds rows `(B, 1), (A, 2)`; submitting the
permutation `[A, B]` is accepted, the sorted rows are `(A, 2), (B, 1)`
(positions `2 downto 1`), and the read-back order is `[A, B]`. -/
theorem reorder_valid_permutation_witness :
    reorderCore true
        [⟨"bbbbbbbbbbbbbbbbbbbbbb", 1⟩, ⟨"aaaaaaaaaaaaaaaaaaaaaa", 2⟩] (some 1)
        [BodyVal.str "aaaaaaaaaaaaaaaaaaaaaa", BodyVal.str "bbbbbbbbbbbbbbbbbbbbbb"]
      = .ok (applyReorder
          [⟨"bbbbbbbbbbbbbbbbbbbbbb", 1⟩, ⟨"aaaaaaaaaaaaaaaaaaaaaa", 2⟩]
          ["aaaaaaaaaaaaaaaaaaaaaa", "bbbbbbbbbbbbbbbbbbbbbb"]) ∧
    readListItems (applyReorder
        [⟨"bbbbbbbbbbbbbbbbbbbbbb", 1⟩, ⟨"aaaaaaaaaaaaaaaaaaaaaa", 2⟩]
        ["aaaaaaaaaaaaaaaaaaaaaa", "bbbbbbbbbbbbbbbbbbbbbb"])
      = ["aaaaaaaaaaaaaaaaaaaaaa", "bbbbbbbbbbbbbbbbbbbbbb"] := by
  have h := reorder_valid_permutation
    [⟨"bbbbbbbbbbbbbbbbbbbbbb", 1⟩, ⟨"aaaaaaaaaaaaaaaaaaaaaa", 2⟩]
    ["aaaaaaaaaaaaaaaaaaaaaa", "bbbbbbbbbbbbbbbbbbbbbb"] 1
    (by decide) (by decide) (by decide) (by decide) (by decide) (by decide)
  exact ⟨h.1, h.2.2⟩

end Jukebox


